import Mathlib

/-!
Verification of the `traceparent` middleware.

Shallow embedding of `traceparent.go` (package `traceparent`) and of the library
functions its single function `Traceparent` calls: `strings.Split`,
`strconv.ParseInt` / `strconv.ParseUint`, `http.Header.Get`,
`(*http.Request).Context`, `(*http.Request).WithContext`, `context.WithValue`
and `slogdriver.Trace.Context`.

A Go string is a sequence of bytes; it is modelled as a list of byte values
(natural numbers).  Handlers are state transformers over an arbitrary world
state, so every effect of the wrapped handler is visible in the result.
-/

namespace traceparent

/-! ## Strings -/

/-- A Go string: its bytes, in order. -/
abbrev GoString := List Nat

/-- The bytes of a string literal whose characters are all ASCII. -/
def str (s : String) : GoString := s.toList.map Char.toNat

/-- Go `strings.Split(s, sep)` for a separator `sep` of one byte: the pieces of `s`
between the occurrences of `sep`; the result is never empty. -/
def Split : GoString → Nat → List GoString
  | [], _ => [[]]
  | c :: cs, sep =>
    if c = sep then [] :: Split cs sep
    else
      match Split cs sep with
      | [] => [[c]]
      | f :: fs => (c :: f) :: fs

/-! ## strconv -/

/-- The kinds of error carried by a `*strconv.NumError`. -/
inductive NumErr where
  | ErrSyntax
  | ErrRange
  | ErrBase
  | ErrBitSize
  deriving DecidableEq, Repr

/-- Go `strconv.lower`: `c | ('x' - 'X')`. -/
def lower (c : Nat) : Nat := c ||| 0x20

/-- Go `maxUint64`. -/
def maxUint64 : Nat := 2 ^ 64 - 1

/-- The digit switch in the loop of `strconv.ParseUint` (without the `'_'` case,
which needs base 0): the value of the byte `c` as a digit, `none` in the
`default` case. -/
def digitOf (c : Nat) : Option Nat :=
  if 48 ≤ c ∧ c ≤ 57 then some (c - 48)
  else if 97 ≤ lower c ∧ lower c ≤ 122 then some (lower c - 97 + 10)
  else none

/-- The `for _, c := range []byte(s)` loop of `strconv.ParseUint`, from the
accumulator `n`; arithmetic on `n` is that of `uint64`. -/
def parseUintLoop (base cutoff maxVal : Nat) : GoString → Nat → Nat × Option NumErr
  | [], n => (n, none)
  | c :: cs, n =>
    match digitOf c with
    | none => (0, some NumErr.ErrSyntax)
    | some d =>
      if d ≥ base % 256 then (0, some NumErr.ErrSyntax)
      else if n ≥ cutoff then (maxVal, some NumErr.ErrRange)
      else
        let nb := (n * base) % 2 ^ 64
        let n1 := (nb + d) % 2 ^ 64
        if n1 < nb ∨ n1 > maxVal then (maxVal, some NumErr.ErrRange)
        else parseUintLoop base cutoff maxVal cs n1

/-- Go `strconv.ParseUint(s, base, bitSize)` for an explicit base, `2 ≤ base ≤ 36`,
and an explicit size, `1 ≤ bitSize ≤ 64`; the automatic modes `base = 0` and
`bitSize = 0` are not used by the program and are reported as errors here.
Returns the value and the error (`none` is Go's `nil`). -/
def ParseUint (s : GoString) (base bitSize : Nat) : Nat × Option NumErr :=
  if s = [] then (0, some NumErr.ErrSyntax)
  else if ¬ (2 ≤ base ∧ base ≤ 36) then (0, some NumErr.ErrBase)
  else if bitSize = 0 ∨ bitSize > 64 then (0, some NumErr.ErrBitSize)
  else
    let cutoff := maxUint64 / base + 1
    let maxVal := (2 ^ bitSize - 1) % 2 ^ 64
    parseUintLoop base cutoff maxVal s 0

/-- Go `strconv.ParseInt(s, base, bitSize)`, under the same restriction on `base`
and `bitSize` as `ParseUint`.  Returns the value and the error. -/
def ParseInt (s : GoString) (base bitSize : Nat) : Int × Option NumErr :=
  match s with
  | [] => (0, some NumErr.ErrSyntax)
  | c0 :: rest =>
    let neg : Bool := decide (c0 = 45)
    let s1 : GoString := if c0 = 43 then rest else if c0 = 45 then rest else c0 :: rest
    let (un, err) := ParseUint s1 base bitSize
    if err ≠ none ∧ err ≠ some NumErr.ErrRange then (0, err)
    else
      let cutoff : Nat := 2 ^ (bitSize - 1)
      if neg = false ∧ un ≥ cutoff then (((cutoff - 1 : Nat) : Int), some NumErr.ErrRange)
      else if neg = true ∧ un > cutoff then (-(cutoff : Int), some NumErr.ErrRange)
      else (if neg then -(un : Int) else (un : Int), none)

/-! ## Contexts and the trace stored in them -/

/-- Go `slogdriver.Trace`. -/
structure Trace where
  ID : GoString
  SpanID : GoString
  Sampled : Bool
  deriving DecidableEq, Repr

/-- Keys of context values: the private key type of `slogdriver` under which a
`Trace` is stored, and all other keys. -/
inductive CtxKey where
  | traceContextKey
  | other (k : Nat)
  deriving DecidableEq, Repr

/-- Values stored in a context. -/
inductive CtxVal where
  | trace (t : Trace)
  | other (v : Nat)
  deriving DecidableEq, Repr

/-- Go `context.Context`, as far as values are concerned: the background context
and the contexts made by `context.WithValue(parent, key, val)`. -/
inductive Context where
  | Background
  | WithValue (parent : Context) (key : CtxKey) (val : CtxVal)
  deriving DecidableEq, Repr

/-- Go `ctx.Value(key)`: the value of the innermost `WithValue` for `key`. -/
def Context.Value : Context → CtxKey → Option CtxVal
  | Context.Background, _ => none
  | Context.WithValue parent k v, key => if k = key then some v else parent.Value key

/-- Go `trace.Context(ctx)` of `slogdriver`: `context.WithValue(ctx, traceContextKey{}, trace)`. -/
def Trace.Context (trace : Trace) (ctx : traceparent.Context) : traceparent.Context :=
  Context.WithValue ctx CtxKey.traceContextKey (CtxVal.trace trace)

/-- The trace a context carries, as `slogdriver` reads it back:
`ctx.Value(traceContextKey{}).(Trace)`. -/
def TraceFromContext (ctx : Context) : Option Trace :=
  match ctx.Value CtxKey.traceContextKey with
  | some (CtxVal.trace t) => some t
  | _ => none

/-! ## Requests and handlers -/

/-- Go `http.Header`, a `map[string][]string`: keys with their values; the first
entry for a key is the map's entry. -/
abbrev Header := List (GoString × List GoString)

/-- Go `h.Get(key)` for a key whose canonical form (`textproto.CanonicalMIMEHeaderKey`)
is `canonicalKey`: the first value stored under the canonical key, `""` if there is none. -/
def Header.Get (h : Header) (canonicalKey : GoString) : GoString :=
  match List.lookup canonicalKey h with
  | none => []
  | some v => v.headD []

/-- Go `http.Request`: the header, the context (`none` is a `nil` `ctx` field) and
the remaining fields, which the middleware never reads. -/
structure Request where
  Method : GoString
  URL : GoString
  Header : Header
  Body : GoString
  ctx : Option Context
  deriving DecidableEq, Repr

/-- Go `r.Context()`. -/
def Request.Context (r : Request) : traceparent.Context :=
  match r.ctx with
  | some c => c
  | none => Context.Background

/-- Go `r.WithContext(ctx)`: a shallow copy of `r` with its context replaced. -/
def Request.WithContext (r : Request) (ctx : traceparent.Context) : Request :=
  { r with ctx := some ctx }

/-- Go `http.Handler`: `ServeHTTP(w, r)` acts on the world state `σ`; `ω` is the
type of response writers. -/
abbrev Handler (ω σ : Type) := ω → Request → σ → σ

/-- The canonical form of the header name `"traceparent"`. -/
def traceparentKey : GoString := str "Traceparent"

/-- Go `Traceparent(next)` of `traceparent.go`. -/
def Traceparent {ω σ : Type} (next : Handler ω σ) : Handler ω σ :=
  fun w r =>
    let traceparent := Split (r.Header.Get traceparentKey) 45
    if traceparent.length = 4 ∧ traceparent.getD 0 [] = str "00" then
      let (flags, err) := ParseInt (traceparent.getD 3 []) 16 8
      if err = none then
        let trace : Trace :=
          { ID := traceparent.getD 1 []
            SpanID := traceparent.getD 2 []
            Sampled := decide (Int.land flags 1 ≠ 0) }
        let ctx := trace.Context r.Context
        next w (r.WithContext ctx)
      else
        next w r
    else
      next w r

/-- A handler that only records its calls: it appends the response writer and the
request it was given to the log. -/
def record {ω : Type} : Handler ω (List (ω × Request)) :=
  fun w r log => log ++ [(w, r)]

/-- A request with the given `traceparent` header value and nothing else. -/
def reqWith (v : GoString) : Request :=
  { Method := str "GET", URL := str "/", Header := [(traceparentKey, [v])], Body := [], ctx := none }

/-- A request with the header value `00-ab-cd-01`, another header, a body and a
context that holds a value under another key. -/
def sampleRequest : Request :=
  { Method := str "POST", URL := str "/v1/items",
    Header := [(str "Accept", [str "text/plain"]), (traceparentKey, [str "00-ab-cd-01"])],
    Body := str "payload",
    ctx := some (Context.WithValue Context.Background (CtxKey.other 7) (CtxVal.other 9)) }

/-! ## What the wrapper does with a request -/

/-- The handler made by `Traceparent` attaches the trace `t` to the request `r`:
whatever `next` is, serving `r` is calling `next` once, with the same response
writer and with `r` carrying the context `t.Context(r.Context())`. -/
def Attaches (r : Request) (t : Trace) : Prop :=
  ∀ (ω σ : Type) (next : Handler ω σ) (w : ω) (s : σ),
    Traceparent next w r s = next w (r.WithContext (t.Context r.Context)) s

/-- The handler made by `Traceparent` passes the request `r` through: whatever
`next` is, serving `r` is calling `next` once, with the same response writer and
with `r` itself. -/
def PassesThrough (r : Request) : Prop :=
  ∀ (ω σ : Type) (next : Handler ω σ) (w : ω) (s : σ),
    Traceparent next w r s = next w r s

/-- The value of the handler's local variable `traceparent` for the request `r`:
the fields of its `traceparent` header value. -/
abbrev fields (r : Request) : List GoString := Split (r.Header.Get traceparentKey) 45

/-- A byte is a hexadecimal digit: `0-9`, `a-f` or `A-F`. -/
def isHexDigit (c : Nat) : Bool :=
  (decide (48 ≤ c) && decide (c ≤ 57)) || (decide (97 ≤ c) && decide (c ≤ 102)) ||
    (decide (65 ≤ c) && decide (c ≤ 70))

/-- The value of a hexadecimal digit. -/
def hexDigitVal (c : Nat) : Nat :=
  if c ≤ 57 then c - 48 else if c ≤ 70 then c - 65 + 10 else c - 97 + 10

/-- The number a string of hexadecimal digits denotes, continuing from `n`. -/
def hexValFrom (n : Nat) (s : GoString) : Nat :=
  s.foldl (fun a c => a * 16 + hexDigitVal c) n

/-- The number a string of hexadecimal digits denotes. -/
def hexVal (s : GoString) : Nat := hexValFrom 0 s

/-- The string that `ParseInt` hands to `ParseUint`: `s` without a leading sign. -/
def unsignedPart (s : GoString) : GoString :=
  match s with
  | [] => []
  | c0 :: rest => if c0 = 43 then rest else if c0 = 45 then rest else c0 :: rest

/-- The two hexadecimal digits of a number below 256. -/
def hexByte (n : Nat) : GoString :=
  [if n / 16 < 10 then 48 + n / 16 else 87 + n / 16,
   if n % 16 < 10 then 48 + n % 16 else 87 + n % 16]

/-- The header values described by their text alone: exactly three `-`, a leading
`00-`, and after the last `-` an optional `+` followed by one or more hexadecimal
digits of value at most 127. -/
def AcceptedHeader (hv : GoString) : Prop :=
  hv.count 45 = 3 ∧ str "00-" <+: hv ∧
    ∃ pre digits : GoString,
      (hv = pre ++ str "-" ++ digits ∨ hv = pre ++ str "-+" ++ digits) ∧
      digits ≠ [] ∧ (∀ c ∈ digits, isHexDigit c = true) ∧ hexVal digits ≤ 127

/-! ## Lemmas on `Split` -/

theorem Split_ne_nil (s : GoString) (sep : Nat) : Split s sep ≠ [] := by
  induction s with
  | nil => simp [Split]
  | cons c cs ih =>
    unfold Split
    split_ifs
    · simp
    · split <;> simp

theorem Split_cons_ne (c : Nat) (cs : GoString) (sep : Nat) (h : c ≠ sep) :
    Split (c :: cs) sep = (c :: (Split cs sep).headD []) :: (Split cs sep).tail := by
  have hne := Split_ne_nil cs sep
  rw [Split, if_neg h]
  cases hs : Split cs sep with
  | nil => exact absurd hs hne
  | cons f fs => simp

theorem Split_length (s : GoString) (sep : Nat) :
    (Split s sep).length = s.count sep + 1 := by
  induction s with
  | nil => simp [Split]
  | cons c cs ih =>
    by_cases h : c = sep
    · subst h
      simp [Split, ih]
    · rw [Split_cons_ne c cs sep h]
      have hne := Split_ne_nil cs sep
      have hc : (c == sep) = false := by simpa using h
      rw [List.count_cons, hc]
      cases hs : Split cs sep with
      | nil => exact absurd hs hne
      | cons f fs =>
        rw [hs] at ih
        simpa using ih

theorem Split_no_sep (a : GoString) (sep : Nat) (h : sep ∉ a) : Split a sep = [a] := by
  induction a with
  | nil => simp [Split]
  | cons c cs ih =>
    have hc : c ≠ sep := fun e => h (by simp [e])
    have hcs : sep ∉ cs := fun e => h (by simp [e])
    rw [Split_cons_ne c cs sep hc, ih hcs]
    simp

theorem Split_append_sep (a b : GoString) (sep : Nat) (h : sep ∉ a) :
    Split (a ++ sep :: b) sep = a :: Split b sep := by
  induction a with
  | nil => simp [Split]
  | cons c cs ih =>
    have hc : c ≠ sep := fun e => h (by simp [e])
    have hcs : sep ∉ cs := fun e => h (by simp [e])
    rw [List.cons_append, Split_cons_ne c _ sep hc, ih hcs]
    simp

theorem Split_mem_no_sep (s : GoString) (sep : Nat) :
    ∀ f ∈ Split s sep, sep ∉ f := by
  induction s with
  | nil => simp [Split]
  | cons c cs ih =>
    by_cases h : c = sep
    · subst h
      intro f hf
      simp only [Split, if_true, List.mem_cons] at hf
      rcases hf with rfl | hf
      · simp
      · exact ih f hf
    · rw [Split_cons_ne c cs sep h]
      have hne := Split_ne_nil cs sep
      cases hs : Split cs sep with
      | nil => exact absurd hs hne
      | cons g gs =>
        rw [hs] at ih
        intro f hf
        simp only [List.headD_cons, List.tail_cons, List.mem_cons] at hf
        rcases hf with rfl | hf
        · have hg := ih g (by simp)
          simp only [List.mem_cons, not_or]
          exact ⟨fun e => h e.symm, hg⟩
        · exact ih f (by simp [hf])

theorem getD_mem_of_lt (l : List GoString) (i : Nat) (h : i < l.length) :
    l.getD i [] ∈ l := by
  rw [List.getD_eq_getElem l [] h]
  exact List.getElem_mem h

/-! ## The two outcomes of `Traceparent` -/

theorem Traceparent_attach (r : Request) (v : Int)
    (hlen : (Split (r.Header.Get traceparentKey) 45).length = 4)
    (hver : (Split (r.Header.Get traceparentKey) 45).getD 0 [] = str "00")
    (hp : ParseInt ((Split (r.Header.Get traceparentKey) 45).getD 3 []) 16 8 = (v, none)) :
    Attaches r
      { ID := (Split (r.Header.Get traceparentKey) 45).getD 1 []
        SpanID := (Split (r.Header.Get traceparentKey) 45).getD 2 []
        Sampled := decide (Int.land v 1 ≠ 0) } := by
  intro ω σ next w s
  simp only [Traceparent, hlen, hver, hp, and_self, if_true]

theorem Traceparent_pass_shape (r : Request)
    (h : ¬ ((Split (r.Header.Get traceparentKey) 45).length = 4 ∧
      (Split (r.Header.Get traceparentKey) 45).getD 0 [] = str "00")) :
    PassesThrough r := by
  intro ω σ next w s
  simp only [Traceparent, if_neg h]

theorem Traceparent_pass_err (r : Request)
    (h : (ParseInt ((Split (r.Header.Get traceparentKey) 45).getD 3 []) 16 8).2 ≠ none) :
    PassesThrough r := by
  by_cases h1 : (Split (r.Header.Get traceparentKey) 45).length = 4 ∧
      (Split (r.Header.Get traceparentKey) 45).getD 0 [] = str "00"
  · intro ω σ next w s
    generalize hpi : ParseInt ((Split (r.Header.Get traceparentKey) 45).getD 3 []) 16 8 = p at h
    obtain ⟨v, e⟩ := p
    simp only [Traceparent, if_pos h1, hpi]
    rw [if_neg h]
  · exact Traceparent_pass_shape r h1

theorem not_passesThrough_of_attaches (r : Request) (t : Trace) (h : Attaches r t) :
    ¬ PassesThrough r := by
  intro hp
  have h1 := h Nat (List (Nat × Request)) record 0 []
  have h2 := hp Nat (List (Nat × Request)) record 0 []
  rw [h1] at h2
  simp only [record, List.nil_append, List.cons.injEq, Prod.mk.injEq, true_and, and_true] at h2
  have h4 : some (t.Context r.Context) = r.ctx := congrArg Request.ctx h2
  cases hr : r.ctx with
  | none => rw [hr] at h4; cases h4
  | some c =>
    rw [hr] at h4
    simp only [Request.Context, hr, Trace.Context, Option.some.injEq] at h4
    have := congrArg sizeOf h4
    simp at this
    omega

theorem attaches_unique (r : Request) (t t' : Trace) (h : Attaches r t) (h' : Attaches r t') :
    t = t' := by
  have h1 := h Nat (List (Nat × Request)) record 0 []
  have h2 := h' Nat (List (Nat × Request)) record 0 []
  rw [h1] at h2
  simp only [record, List.nil_append, List.cons.injEq, Prod.mk.injEq, true_and, and_true] at h2
  have h3 : (r.WithContext (t.Context r.Context)).ctx = (r.WithContext (t'.Context r.Context)).ctx := by
    rw [h2]
  simpa [Request.WithContext, Trace.Context] using h3

/-! ## Lemmas on `ParseUint` and `ParseInt` in base 16 with 8 bits -/

theorem le_lower (c : Nat) : c ≤ lower c := by
  unfold lower
  apply Nat.le_of_testBit
  intro i h
  simp [h]

set_option maxRecDepth 100000 in
theorem digitOf_small : ∀ c, c < 123 →
    (isHexDigit c = true → digitOf c = some (hexDigitVal c) ∧ hexDigitVal c < 16) ∧
    (isHexDigit c = false → (digitOf c).getD 16 ≥ 16) := by
  decide

theorem digitOf_hex (c : Nat) (h : isHexDigit c = true) :
    digitOf c = some (hexDigitVal c) ∧ hexDigitVal c < 16 := by
  have hc : c < 123 := by
    simp only [isHexDigit, Bool.or_eq_true, Bool.and_eq_true, decide_eq_true_eq] at h
    omega
  exact (digitOf_small c hc).1 h

theorem digitOf_nonhex (c : Nat) (h : isHexDigit c = false) : (digitOf c).getD 16 ≥ 16 := by
  by_cases hc : c < 123
  · exact (digitOf_small c hc).2 h
  · have hl := le_lower c
    have : digitOf c = none := by
      unfold digitOf
      rw [if_neg (by omega), if_neg (by omega)]
    simp [this]

theorem hexValFrom_cons (n c : Nat) (s : GoString) :
    hexValFrom n (c :: s) = hexValFrom (n * 16 + hexDigitVal c) s := rfl

theorem hexValFrom_ge (s : GoString) : ∀ n, n ≤ hexValFrom n s := by
  induction s with
  | nil => intro n; exact Nat.le_refl n
  | cons c cs ih =>
    intro n
    rw [hexValFrom_cons]
    have := ih (n * 16 + hexDigitVal c)
    omega

theorem parseUintLoop_hex (s : GoString) (hs : ∀ c ∈ s, isHexDigit c = true) :
    ∀ n, n ≤ 255 →
      parseUintLoop 16 (maxUint64 / 16 + 1) 255 s n =
        if hexValFrom n s ≤ 255 then (hexValFrom n s, none) else (255, some NumErr.ErrRange) := by
  induction s with
  | nil =>
    intro n hn
    simp [parseUintLoop, hexValFrom, hn]
  | cons c cs ih =>
    intro n hn
    have hd := digitOf_hex c (hs c (by simp))
    have hcs : ∀ c ∈ cs, isHexDigit c = true := fun x hx => hs x (by simp [hx])
    have hcut : ¬ n ≥ maxUint64 / 16 + 1 := by
      simp only [maxUint64]
      omega
    have hnb : (n * 16) % 2 ^ 64 = n * 16 := Nat.mod_eq_of_lt (by omega)
    have hn1 : (n * 16 + hexDigitVal c) % 2 ^ 64 = n * 16 + hexDigitVal c :=
      Nat.mod_eq_of_lt (by omega)
    rw [hexValFrom_cons]
    simp only [parseUintLoop, hd.1]
    rw [if_neg (by omega), if_neg hcut]
    simp only [hnb, hn1]
    by_cases hbig : n * 16 + hexDigitVal c > 255
    · have := hexValFrom_ge cs (n * 16 + hexDigitVal c)
      rw [if_pos (Or.inr hbig), if_neg (by omega)]
    · rw [if_neg (by omega)]
      exact ih hcs _ (by omega)

theorem parseUintLoop_nonhex (s : GoString) (hs : ∃ c ∈ s, isHexDigit c = false) :
    ∀ n, n ≤ 255 →
      parseUintLoop 16 (maxUint64 / 16 + 1) 255 s n = (0, some NumErr.ErrSyntax) ∨
      parseUintLoop 16 (maxUint64 / 16 + 1) 255 s n = (255, some NumErr.ErrRange) := by
  induction s with
  | nil =>
    obtain ⟨c, hc, _⟩ := hs
    simp at hc
  | cons c cs ih =>
    intro n hn
    cases hh : isHexDigit c with
    | false =>
      left
      have hd := digitOf_nonhex c hh
      cases hdc : digitOf c with
      | none => simp only [parseUintLoop, hdc]
      | some d =>
        rw [hdc] at hd
        simp only [Option.getD_some] at hd
        simp only [parseUintLoop, hdc]
        rw [if_pos (by omega)]
    | true =>
      have hd := digitOf_hex c hh
      have hcs : ∃ x ∈ cs, isHexDigit x = false := by
        obtain ⟨x, hx, hxf⟩ := hs
        rcases List.mem_cons.mp hx with rfl | hx
        · rw [hh] at hxf; cases hxf
        · exact ⟨x, hx, hxf⟩
      have hcut : ¬ n ≥ maxUint64 / 16 + 1 := by
        simp only [maxUint64]
        omega
      have hnb : (n * 16) % 2 ^ 64 = n * 16 := Nat.mod_eq_of_lt (by omega)
      have hn1 : (n * 16 + hexDigitVal c) % 2 ^ 64 = n * 16 + hexDigitVal c :=
        Nat.mod_eq_of_lt (by omega)
      simp only [parseUintLoop, hd.1]
      rw [if_neg (by omega), if_neg hcut]
      simp only [hnb, hn1]
      by_cases hbig : n * 16 + hexDigitVal c > 255
      · right
        rw [if_pos (Or.inr hbig)]
      · rw [if_neg (by omega)]
        exact ih hcs _ (by omega)

theorem ParseUint_16_8 (s : GoString) (hne : s ≠ []) :
    ParseUint s 16 8 = parseUintLoop 16 (maxUint64 / 16 + 1) 255 s 0 := by
  simp [ParseUint, hne]

theorem ParseUint_hex (s : GoString) (hne : s ≠ []) (hs : ∀ c ∈ s, isHexDigit c = true) :
    ParseUint s 16 8 =
      if hexVal s ≤ 255 then (hexVal s, none) else (255, some NumErr.ErrRange) := by
  rw [ParseUint_16_8 s hne, parseUintLoop_hex s hs 0 (by omega)]
  rfl

theorem ParseUint_nonhex (s : GoString) (hs : ∃ c ∈ s, isHexDigit c = false) :
    ParseUint s 16 8 = (0, some NumErr.ErrSyntax) ∨ ParseUint s 16 8 = (255, some NumErr.ErrRange) := by
  have hne : s ≠ [] := by
    rintro rfl
    obtain ⟨c, hc, _⟩ := hs
    simp at hc
  rw [ParseUint_16_8 s hne]
  exact parseUintLoop_nonhex s hs 0 (by omega)

theorem ParseInt_nonneg_eq (s : GoString) (hne : s ≠ []) (h45 : s.head? ≠ some 45) :
    ParseInt s 16 8 =
      if (ParseUint (unsignedPart s) 16 8).2 ≠ none ∧
          (ParseUint (unsignedPart s) 16 8).2 ≠ some NumErr.ErrRange then
        (0, (ParseUint (unsignedPart s) 16 8).2)
      else if (ParseUint (unsignedPart s) 16 8).1 ≥ 128 then (127, some NumErr.ErrRange)
      else (((ParseUint (unsignedPart s) 16 8).1 : Int), none) := by
  cases s with
  | nil => exact absurd rfl hne
  | cons c0 rest =>
    have hc : c0 ≠ 45 := by
      intro e
      apply h45
      simp [e]
    simp only [ParseInt, unsignedPart, hc, if_false]
    generalize ParseUint (if c0 = 43 then rest else c0 :: rest) 16 8 = p
    obtain ⟨un, err⟩ := p
    simp

theorem head_hex_not_sign (s : GoString) (hs : ∀ c ∈ s, isHexDigit c = true) :
    s.head? ≠ some 45 ∧ unsignedPart s = s := by
  cases s with
  | nil => simp [unsignedPart]
  | cons c0 rest =>
    have h0 := hs c0 (by simp)
    have h43 : c0 ≠ 43 := by
      rintro rfl
      revert h0
      decide
    have h45 : c0 ≠ 45 := by
      rintro rfl
      revert h0
      decide
    simp [unsignedPart, h43, h45]

theorem ParseInt_hex (s : GoString) (hne : s ≠ []) (hs : ∀ c ∈ s, isHexDigit c = true) :
    ParseInt s 16 8 =
      if hexVal s ≤ 127 then ((hexVal s : Int), none) else (127, some NumErr.ErrRange) := by
  obtain ⟨h45, hu⟩ := head_hex_not_sign s hs
  rw [ParseInt_nonneg_eq s hne h45, hu, ParseUint_hex s hne hs]
  by_cases h1 : hexVal s ≤ 127
  · rw [if_pos (by omega : hexVal s ≤ 255), if_pos h1]
    simp
    omega
  · rw [if_neg h1]
    by_cases h2 : hexVal s ≤ 255
    · rw [if_pos h2]
      simp
      omega
    · rw [if_neg h2]
      simp

theorem ParseInt_nonhex (s : GoString) (h45 : s.head? ≠ some 45)
    (h : ∃ c ∈ unsignedPart s, isHexDigit c = false) :
    (ParseInt s 16 8).2 ≠ none := by
  have hne : s ≠ [] := by
    rintro rfl
    obtain ⟨c, hc, _⟩ := h
    simp [unsignedPart] at hc
  rw [ParseInt_nonneg_eq s hne h45]
  rcases ParseUint_nonhex (unsignedPart s) h with h1 | h1 <;> rw [h1] <;> simp

theorem ParseInt_neg_head (s : GoString) (base bitSize : Nat) (v : Int)
    (h : ParseInt s base bitSize = (v, none)) (hv : v < 0) : s.head? = some 45 := by
  cases s with
  | nil => simp [ParseInt] at h
  | cons c0 rest =>
    by_cases hc : c0 = 45
    · simp [hc]
    · exfalso
      simp only [ParseInt, hc, decide_False, Bool.and_false, if_false] at h
      generalize ParseUint (if c0 = 43 then rest else c0 :: rest) base bitSize = p at h
      obtain ⟨un, err⟩ := p
      simp only at h
      split_ifs at h with h1 h2 h3 h4 <;> simp only [Prod.mk.injEq] at h
      · exact h1.1 h.2
      · exact absurd h.2 (by simp)
      · exact h3.1.elim
      · exact h4
      · omega

theorem land_one_natCast (n : Nat) : Int.land (n : Int) 1 ≠ 0 ↔ n % 2 = 1 := by
  have : Int.land (n : Int) 1 = ((n &&& 1 : Nat) : Int) := rfl
  rw [this, Nat.and_one_is_mod]
  omega

/-! ## Header values of the form `version-id-span-flags` -/

theorem Split_four (v id span flags : GoString) (hv : 45 ∉ v) (hid : 45 ∉ id)
    (hspan : 45 ∉ span) (hflags : 45 ∉ flags) :
    Split (v ++ 45 :: (id ++ 45 :: (span ++ 45 :: flags))) 45 = [v, id, span, flags] := by
  rw [Split_append_sep v _ 45 hv, Split_append_sep id _ 45 hid,
    Split_append_sep span _ 45 hspan, Split_no_sep flags 45 hflags]

theorem str_version : str "00-" = [48, 48] ++ [45] := by decide

theorem str_dash : str "-" = [45] := by decide

theorem header_shape (id span flags : GoString) :
    str "00-" ++ id ++ str "-" ++ span ++ str "-" ++ flags =
      [48, 48] ++ 45 :: (id ++ 45 :: (span ++ 45 :: flags)) := by
  rw [str_version, str_dash]
  simp

theorem hex_no_dash (s : GoString) (hs : ∀ c ∈ s, isHexDigit c = true) : 45 ∉ s := by
  intro h
  have := hs 45 h
  revert this
  decide

theorem Get_of_lookup_none (h : Header) (k : GoString) (hk : List.lookup k h = none) :
    Header.Get h k = [] := by
  simp [Header.Get, hk]

theorem WithContext_Header (r : Request) (c : Context) : (r.WithContext c).Header = r.Header :=
  rfl

theorem WithContext_Context (r : Request) (c : Context) : (r.WithContext c).Context = c :=
  rfl

theorem TraceFromContext_attach (t : Trace) (c : Context) :
    TraceFromContext (t.Context c) = some t := by
  simp [TraceFromContext, Trace.Context, Context.Value]

/-- The outcome is decided by the header value alone: either every request with
the header value `hv` is passed through, or there is one trace attached to every
request with that header value. -/
theorem outcome_of_header (hv : GoString) :
    (∀ r : Request, r.Header.Get traceparentKey = hv → PassesThrough r) ∨
    (∃ t : Trace, ∀ r : Request, r.Header.Get traceparentKey = hv → Attaches r t) := by
  by_cases h1 : (Split hv 45).length = 4 ∧ (Split hv 45).getD 0 [] = str "00"
  · cases hp : ParseInt ((Split hv 45).getD 3 []) 16 8 with
    | mk v e =>
      cases e with
      | none =>
        right
        refine ⟨{ ID := (Split hv 45).getD 1 [], SpanID := (Split hv 45).getD 2 [],
                  Sampled := decide (Int.land v 1 ≠ 0) }, ?_⟩
        intro r hr
        subst hr
        exact Traceparent_attach r v h1.1 h1.2 hp
      | some e =>
        left
        intro r hr
        subst hr
        apply Traceparent_pass_err
        rw [hp]
        simp
  · left
    intro r hr
    subst hr
    exact Traceparent_pass_shape r h1

theorem fields_of_form (r : Request) (id span flags : GoString)
    (hid : 45 ∉ id) (hspan : 45 ∉ span) (hflags : 45 ∉ flags)
    (hr : r.Header.Get traceparentKey = str "00-" ++ id ++ str "-" ++ span ++ str "-" ++ flags) :
    Split (r.Header.Get traceparentKey) 45 = [[48, 48], id, span, flags] := by
  rw [hr, header_shape]
  exact Split_four [48, 48] id span flags (by decide) hid hspan hflags

theorem attaches_of_form (r : Request) (id span flags : GoString)
    (hid : 45 ∉ id) (hspan : 45 ∉ span) (hne : flags ≠ [])
    (hhex : ∀ c ∈ flags, isHexDigit c = true) (hval : hexVal flags ≤ 127)
    (hr : r.Header.Get traceparentKey = str "00-" ++ id ++ str "-" ++ span ++ str "-" ++ flags) :
    Attaches r { ID := id, SpanID := span, Sampled := decide (hexVal flags % 2 = 1) } := by
  have hf := fields_of_form r id span flags hid hspan (hex_no_dash flags hhex) hr
  have hp : ParseInt ((Split (r.Header.Get traceparentKey) 45).getD 3 []) 16 8 =
      ((hexVal flags : Int), none) := by
    rw [hf]
    show ParseInt flags 16 8 = _
    rw [ParseInt_hex flags hne hhex, if_pos hval]
  have hA := Traceparent_attach r (hexVal flags) (by rw [hf]; rfl) (by rw [hf]; rfl) hp
  have hs : decide (Int.land (hexVal flags : Int) 1 ≠ 0) = decide (hexVal flags % 2 = 1) :=
    decide_eq_decide.mpr (land_one_natCast _)
  rw [hs, hf] at hA
  exact hA

theorem flags_no_dash (r : Request) (hlen : (fields r).length = 4) :
    45 ∉ (fields r).getD 3 [] :=
  Split_mem_no_sep _ 45 _ (getD_mem_of_lt (fields r) 3 (by omega))

theorem parsed_flags_nonneg (r : Request) (v : Int) (hlen : (fields r).length = 4)
    (hp : ParseInt ((fields r).getD 3 []) 16 8 = (v, none)) : 0 ≤ v := by
  by_contra hv
  have hh := ParseInt_neg_head _ 16 8 v hp (by omega)
  have hd := flags_no_dash r hlen
  cases hf : (fields r).getD 3 [] with
  | nil => rw [hf] at hh; simp at hh
  | cons c0 rest =>
    rw [hf] at hh hd
    simp only [List.head?_cons, Option.some.injEq] at hh
    exact hd (by simp [hh])

theorem str_dash_01 : str "-01" = str "-" ++ str "01" := by decide

theorem count_of_form (id span flags : GoString) :
    List.count 45 ([48, 48] ++ 45 :: (id ++ 45 :: (span ++ 45 :: flags))) =
      List.count 45 id + List.count 45 span + List.count 45 flags + 3 := by
  simp only [List.count_append, List.count_cons, List.count_nil]
  simp
  omega

set_option maxRecDepth 100000 in
theorem hexByte_spec : ∀ n, n < 128 →
    (∀ c ∈ hexByte n, isHexDigit c = true) ∧ hexVal (hexByte n) = n := by
  decide

theorem Get_reqWith (v : GoString) : (reqWith v).Header.Get traceparentKey = v := by
  simp [reqWith, Header.Get, List.lookup]

theorem parses_hexByte (n : Nat) (hn : n < 128) :
    (fields (reqWith (str "00-" ++ str "a" ++ str "-" ++ str "b" ++ str "-" ++ hexByte n))).length = 4 ∧
    (fields (reqWith (str "00-" ++ str "a" ++ str "-" ++ str "b" ++ str "-" ++ hexByte n))).getD 0 []
      = str "00" ∧
    ParseInt ((fields
      (reqWith (str "00-" ++ str "a" ++ str "-" ++ str "b" ++ str "-" ++ hexByte n))).getD 3 [])
        16 8 = ((n : Int), none) ∧
    Attaches (reqWith (str "00-" ++ str "a" ++ str "-" ++ str "b" ++ str "-" ++ hexByte n))
      { ID := str "a", SpanID := str "b", Sampled := decide (Int.land (n : Int) 1 ≠ 0) } := by
  obtain ⟨hhex, hval⟩ := hexByte_spec n hn
  have hne : hexByte n ≠ [] := by simp [hexByte]
  have hf := fields_of_form _ (str "a") (str "b") (hexByte n) (by decide) (by decide)
    (hex_no_dash _ hhex) (Get_reqWith _)
  have hA := attaches_of_form _ (str "a") (str "b") (hexByte n) (by decide) (by decide)
    hne hhex (by omega) (Get_reqWith _)
  have hs : decide (Int.land (n : Int) 1 ≠ 0) = decide (hexVal (hexByte n) % 2 = 1) := by
    rw [hval]
    exact decide_eq_decide.mpr (land_one_natCast n)
  refine ⟨?_, ?_, ?_, ?_⟩
  · show (Split _ 45).length = 4
    rw [hf]
    rfl
  · show (Split _ 45).getD 0 [] = _
    rw [hf]
    rfl
  · show ParseInt ((Split _ 45).getD 3 []) 16 8 = _
    rw [hf]
    show ParseInt (hexByte n) 16 8 = _
    rw [ParseInt_hex _ hne hhex, if_pos (by omega), hval]
  · rw [hs]
    exact hA

/-! ## Further lemmas: the shape of accepted header values -/

theorem Split_append_sep_all (a b : GoString) (sep : Nat) :
    Split (a ++ sep :: b) sep = Split a sep ++ Split b sep := by
  induction a with
  | nil => simp [Split]
  | cons c cs ih =>
    by_cases h : c = sep
    · subst h
      simp [Split, ih]
    · rw [List.cons_append, Split_cons_ne c _ sep h, Split_cons_ne c cs sep h, ih]
      have hne := Split_ne_nil cs sep
      cases hs : Split cs sep with
      | nil => exact absurd hs hne
      | cons f fs => simp

theorem Split_eq_cons (s : GoString) (sep : Nat) :
    ∀ (f : GoString) (rest : List GoString), Split s sep = f :: rest →
      (rest = [] ∧ s = f) ∨ (∃ s1, s = f ++ sep :: s1 ∧ Split s1 sep = rest) := by
  induction s with
  | nil =>
    intro f rest h
    simp only [Split, List.cons.injEq] at h
    exact Or.inl ⟨h.2.symm, h.1⟩
  | cons c cs ih =>
    intro f rest h
    by_cases hc : c = sep
    · subst hc
      simp only [Split, if_true, List.cons.injEq] at h
      right
      exact ⟨cs, by rw [← h.1]; rfl, h.2⟩
    · rw [Split_cons_ne c cs sep hc] at h
      have hne := Split_ne_nil cs sep
      cases hs : Split cs sep with
      | nil => exact absurd hs hne
      | cons g gs =>
        rw [hs] at h
        simp only [List.headD_cons, List.tail_cons, List.cons.injEq] at h
        obtain ⟨hf, hr⟩ := h
        subst hf
        subst hr
        rcases ih g gs hs with ⟨h1, h2⟩ | ⟨s1, h1, h2⟩
        · exact Or.inl ⟨h1, by rw [h2]⟩
        · exact Or.inr ⟨s1, by rw [h1]; rfl, h2⟩

theorem Split_eq_four (s : GoString) (sep : Nat) (f0 f1 f2 f3 : GoString)
    (h : Split s sep = [f0, f1, f2, f3]) :
    s = f0 ++ sep :: (f1 ++ sep :: (f2 ++ sep :: f3)) := by
  rcases Split_eq_cons s sep _ _ h with ⟨h0, _⟩ | ⟨s1, e1, h1⟩
  · cases h0
  rcases Split_eq_cons s1 sep _ _ h1 with ⟨h0, _⟩ | ⟨s2, e2, h2⟩
  · cases h0
  rcases Split_eq_cons s2 sep _ _ h2 with ⟨h0, _⟩ | ⟨s3, e3, h3⟩
  · cases h0
  rcases Split_eq_cons s3 sep _ _ h3 with ⟨_, e4⟩ | ⟨s4, _, h4⟩
  · rw [e1, e2, e3, e4]
  · exact absurd h4 (Split_ne_nil s4 sep)

theorem list_of_length_four (l : List GoString) (h : l.length = 4) :
    l = [l.getD 0 [], l.getD 1 [], l.getD 2 [], l.getD 3 []] := by
  match l, h with
  | [_, _, _, _], _ => rfl

theorem unsignedPart_plus (d : GoString) : unsignedPart (43 :: d) = d := by
  simp [unsignedPart]

theorem unsignedPart_cases (s : GoString) (h45 : 45 ∉ s) :
    s = unsignedPart s ∨ s = 43 :: unsignedPart s := by
  cases s with
  | nil => exact Or.inl rfl
  | cons c0 rest =>
    have hc : c0 ≠ 45 := fun e => h45 (by simp [e])
    by_cases h43 : c0 = 43
    · right
      simp [unsignedPart, h43]
    · left
      simp [unsignedPart, h43, hc]

theorem ParseInt_unsigned_hex (s : GoString) (h45 : s.head? ≠ some 45)
    (hne : unsignedPart s ≠ []) (hs : ∀ c ∈ unsignedPart s, isHexDigit c = true) :
    ParseInt s 16 8 =
      if hexVal (unsignedPart s) ≤ 127 then ((hexVal (unsignedPart s) : Int), none)
      else (127, some NumErr.ErrRange) := by
  have hsne : s ≠ [] := by
    rintro rfl
    exact hne rfl
  rw [ParseInt_nonneg_eq s hsne h45, ParseUint_hex _ hne hs]
  by_cases h1 : hexVal (unsignedPart s) ≤ 127
  · rw [if_pos (by omega : hexVal (unsignedPart s) ≤ 255), if_pos h1]
    simp
    omega
  · rw [if_neg h1]
    by_cases h2 : hexVal (unsignedPart s) ≤ 255
    · rw [if_pos h2]
      simp
      omega
    · rw [if_neg h2]
      simp

theorem ParseInt_empty_unsigned (s : GoString) (h45 : s.head? ≠ some 45)
    (hu : unsignedPart s = []) : (ParseInt s 16 8).2 ≠ none := by
  cases s with
  | nil => simp [ParseInt]
  | cons c0 rest =>
    rw [ParseInt_nonneg_eq _ (by simp) h45, hu]
    simp [ParseUint]

/-- For a string without `-`, `ParseInt(s, 16, 8)` succeeds exactly when `s` without
a leading `+` is a non-empty string of hexadecimal digits of value at most 127. -/
theorem ParseInt_ok_iff (s : GoString) (h45 : s.head? ≠ some 45) :
    (ParseInt s 16 8).2 = none ↔
      (unsignedPart s ≠ [] ∧ (∀ c ∈ unsignedPart s, isHexDigit c = true) ∧
        hexVal (unsignedPart s) ≤ 127) := by
  constructor
  · intro hok
    have hne : unsignedPart s ≠ [] := fun hu => ParseInt_empty_unsigned s h45 hu hok
    have hhex : ∀ c ∈ unsignedPart s, isHexDigit c = true := by
      intro c hc
      by_contra hx
      exact ParseInt_nonhex s h45 ⟨c, hc, by simpa using hx⟩ hok
    refine ⟨hne, hhex, ?_⟩
    by_contra hbig
    rw [ParseInt_unsigned_hex s h45 hne hhex, if_neg hbig] at hok
    simp at hok
  · rintro ⟨hne, hhex, hval⟩
    rw [ParseInt_unsigned_hex s h45 hne hhex, if_pos hval]

theorem head_ne_of_not_mem (s : GoString) (h : 45 ∉ s) : s.head? ≠ some 45 := by
  cases s with
  | nil => simp
  | cons c0 rest =>
    intro e
    simp only [List.head?_cons, Option.some.injEq] at e
    exact h (by simp [e])

/-- What `Attaches` means for the code: the header value passes the three tests of
the handler and the trace is the one built from its fields. -/
theorem attaches_inv (r : Request) (t : Trace) (h : Attaches r t) :
    (fields r).length = 4 ∧ (fields r).getD 0 [] = str "00" ∧
      ∃ v : Int, ParseInt ((fields r).getD 3 []) 16 8 = (v, none) ∧
        t = { ID := (fields r).getD 1 [], SpanID := (fields r).getD 2 [],
              Sampled := decide (Int.land v 1 ≠ 0) } := by
  by_cases h1 : (fields r).length = 4 ∧ (fields r).getD 0 [] = str "00"
  · cases hp : ParseInt ((fields r).getD 3 []) 16 8 with
    | mk v e =>
      cases e with
      | none =>
        exact ⟨h1.1, h1.2, v, rfl, attaches_unique r t _ h (Traceparent_attach r v h1.1 h1.2 hp)⟩
      | some e =>
        have hpass : PassesThrough r := by
          apply Traceparent_pass_err
          show (ParseInt ((fields r).getD 3 []) 16 8).2 ≠ none
          rw [hp]
          simp
        exact absurd hpass (not_passesThrough_of_attaches r t h)
  · exact absurd (Traceparent_pass_shape r h1) (not_passesThrough_of_attaches r t h)

theorem str_00 : str "00" = [48, 48] := by decide

theorem str_dash_plus : str "-+" = [45, 43] := by decide

theorem accepted_of_attaches (r : Request) (t : Trace) (h : Attaches r t) :
    AcceptedHeader (r.Header.Get traceparentKey) := by
  obtain ⟨hlen, hver, v, hp, -⟩ := attaches_inv r t h
  have hl := list_of_length_four (fields r) hlen
  have hform := Split_eq_four (r.Header.Get traceparentKey) 45 _ _ _ _ hl
  have hd := flags_no_dash r hlen
  have hok : (ParseInt ((fields r).getD 3 []) 16 8).2 = none := by rw [hp]
  obtain ⟨hne, hhex, hval⟩ := (ParseInt_ok_iff _ (head_ne_of_not_mem _ hd)).mp hok
  refine ⟨?_, ?_, ?_⟩
  · have := Split_length (r.Header.Get traceparentKey) 45
    have hlen4 : (Split (r.Header.Get traceparentKey) 45).length = 4 := hlen
    omega
  · refine ⟨(fields r).getD 1 [] ++ 45 :: ((fields r).getD 2 [] ++ 45 :: (fields r).getD 3 []), ?_⟩
    rw [hform, hver, str_version, str_00]
    simp
  · refine ⟨(fields r).getD 0 [] ++ 45 :: ((fields r).getD 1 [] ++ 45 :: (fields r).getD 2 []),
      unsignedPart ((fields r).getD 3 []), ?_, hne, hhex, hval⟩
    rcases unsignedPart_cases _ hd with e | e
    · left
      rw [str_dash, hform]
      rw [← e]
      simp
    · right
      rw [str_dash_plus, hform]
      have e2 : (fields r).getD 3 [] = [43] ++ unsignedPart ((fields r).getD 3 []) := e
      generalize unsignedPart ((fields r).getD 3 []) = u at e2
      rw [e2]
      simp

theorem attaches_of_accepted (r : Request) (h : AcceptedHeader (r.Header.Get traceparentKey)) :
    ∃ t : Trace, Attaches r t := by
  obtain ⟨hcount, ⟨rest, hpre⟩, pre, digits, hform, hne, hhex, hval⟩ := h
  have hdig := head_hex_not_sign digits hhex
  -- the text after the last `-`
  obtain ⟨tail, htail, h45, hu⟩ : ∃ tail : GoString,
      r.Header.Get traceparentKey = pre ++ 45 :: tail ∧ 45 ∉ tail ∧ unsignedPart tail = digits := by
    rcases hform with e | e
    · exact ⟨digits, by rw [e, str_dash]; simp, hex_no_dash digits hhex, hdig.2⟩
    · refine ⟨43 :: digits, by rw [e, str_dash_plus]; simp, ?_, unsignedPart_plus digits⟩
      have := hex_no_dash digits hhex
      simp only [List.mem_cons, not_or]
      exact ⟨by decide, this⟩
  have hlen : (Split (r.Header.Get traceparentKey) 45).length = 4 := by
    rw [Split_length, hcount]
  have hsplit : Split (r.Header.Get traceparentKey) 45 = Split pre 45 ++ [tail] := by
    rw [htail, Split_append_sep_all, Split_no_sep tail 45 h45]
  have hver : (Split (r.Header.Get traceparentKey) 45).getD 0 [] = str "00" := by
    rw [← hpre, str_version, List.append_assoc, List.singleton_append,
      Split_append_sep _ _ 45 (by decide), str_00]
    rfl
  have hflags : (Split (r.Header.Get traceparentKey) 45).getD 3 [] = tail := by
    rw [hsplit] at hlen ⊢
    have h3 : (Split pre 45).length = 3 := by simpa using hlen
    match Split pre 45, h3 with
    | [_, _, _], _ => rfl
  have hp : ParseInt ((Split (r.Header.Get traceparentKey) 45).getD 3 []) 16 8 =
      ((hexVal digits : Int), none) := by
    rw [hflags, ParseInt_unsigned_hex tail (head_ne_of_not_mem _ h45) (by rw [hu]; exact hne)
      (by rw [hu]; exact hhex), hu, if_pos hval]
  exact ⟨_, Traceparent_attach r _ hlen hver hp⟩

theorem passes_or_attaches (r : Request) : PassesThrough r ∨ ∃ t : Trace, Attaches r t := by
  rcases outcome_of_header (r.Header.Get traceparentKey) with h | ⟨t, h⟩
  · exact Or.inl (h r rfl)
  · exact Or.inr ⟨t, h r rfl⟩

theorem hexVal_concat (s : GoString) (c : Nat) :
    hexVal (s ++ [c]) = hexVal s * 16 + hexDigitVal c := by
  simp [hexVal, hexValFrom, List.foldl_append]

set_option maxRecDepth 100000 in
theorem odd_hex_small : ∀ c, c < 123 → isHexDigit c = true →
    (hexDigitVal c % 2 = 1 ↔ c ∈ str "13579bdfBDF") := by
  decide

theorem odd_hex (c : Nat) (h : isHexDigit c = true) :
    hexDigitVal c % 2 = 1 ↔ c ∈ str "13579bdfBDF" := by
  have hc : c < 123 := by
    simp only [isHexDigit, Bool.or_eq_true, Bool.and_eq_true, decide_eq_true_eq] at h
    omega
  exact odd_hex_small c hc h

/-- The value that an accepted trace-flags field parses to. -/
theorem attaches_value (r : Request) (t : Trace) (h : Attaches r t) :
    unsignedPart ((fields r).getD 3 []) ≠ [] ∧
      (∀ c ∈ unsignedPart ((fields r).getD 3 []), isHexDigit c = true) ∧
      hexVal (unsignedPart ((fields r).getD 3 [])) ≤ 127 ∧
      t = { ID := (fields r).getD 1 [], SpanID := (fields r).getD 2 [],
            Sampled := decide (hexVal (unsignedPart ((fields r).getD 3 [])) % 2 = 1) } := by
  obtain ⟨hlen, -, v, hp, ht⟩ := attaches_inv r t h
  have hd := flags_no_dash r hlen
  have h45 := head_ne_of_not_mem _ hd
  have hok : (ParseInt ((fields r).getD 3 []) 16 8).2 = none := by rw [hp]
  obtain ⟨hne, hhex, hval⟩ := (ParseInt_ok_iff _ h45).mp hok
  refine ⟨hne, hhex, hval, ?_⟩
  rw [ParseInt_unsigned_hex _ h45 hne hhex, if_pos hval] at hp
  have hv : v = (hexVal (unsignedPart ((fields r).getD 3 [])) : Int) := by
    have := congrArg Prod.fst hp
    exact this.symm
  rw [ht, hv]
  congr 1
  exact decide_eq_decide.mpr (land_one_natCast _)

theorem sampled_iff_last (r : Request) (t : Trace) (h : Attaches r t) :
    t.Sampled = true ↔
      ∃ c, ((fields r).getD 3 []).getLast? = some c ∧ c ∈ str "13579bdfBDF" := by
  obtain ⟨hlen, -, -, -, -⟩ := attaches_inv r t h
  obtain ⟨hne, hhex, -, ht⟩ := attaches_value r t h
  have hd := flags_no_dash r hlen
  have hcases := unsignedPart_cases _ hd
  generalize (fields r).getD 3 [] = fl at hne hhex ht hcases
  generalize unsignedPart fl = u at hne hhex ht hcases
  rcases List.eq_nil_or_concat u with e | ⟨ini, c, e⟩
  · exact absurd e hne
  rw [List.concat_eq_append] at e
  subst e
  have hlast : fl.getLast? = some c := by
    rcases hcases with e | e
    · rw [e]
      exact List.getLast?_concat ini
    · rw [e, ← List.cons_append]
      exact List.getLast?_concat (43 :: ini)
  have hc : isHexDigit c = true := hhex c (by simp)
  have hs : t.Sampled = decide (hexDigitVal c % 2 = 1) := by
    rw [ht, hexVal_concat]
    show decide _ = decide _
    apply decide_eq_decide.mpr
    omega
  rw [hs, hlast, decide_eq_true_eq, odd_hex c hc]
  constructor
  · intro hm
    exact ⟨c, rfl, hm⟩
  · rintro ⟨c1, hc1, hm⟩
    cases hc1
    exact hm

theorem passes_of_form (r : Request) (id span flags : GoString)
    (hid : 45 ∉ id) (hspan : 45 ∉ span) (hne : flags ≠ [])
    (hhex : ∀ c ∈ flags, isHexDigit c = true) (hval : 127 < hexVal flags)
    (hr : r.Header.Get traceparentKey = str "00-" ++ id ++ str "-" ++ span ++ str "-" ++ flags) :
    PassesThrough r := by
  have hf := fields_of_form r id span flags hid hspan (hex_no_dash flags hhex) hr
  apply Traceparent_pass_err
  rw [hf]
  show (ParseInt flags 16 8).2 ≠ none
  rw [ParseInt_hex flags hne hhex, if_neg (by omega)]
  simp

theorem hexVal_zero_cons (f : GoString) : hexVal (48 :: f) = hexVal f := rfl

theorem str_dash_0 (f : GoString) : str "-0" ++ f = str "-" ++ (48 :: f) := by
  have : str "-0" = str "-" ++ [48] := by decide
  rw [this]
  simp

/-! ## The claims -/

/-- C1: when the `traceparent` header value splits on `-` into exactly 4 fields, the
first is `"00"` and `strconv.ParseInt(field4, 16, 8)` returns the value `v` without
error, the handler calls `next` once with the request whose context is
`trace.Context(r.Context())` for the trace with `ID` the 2nd field, `SpanID` the
3rd field and `Sampled = ((v & 1) != 0)`, and that context carries this trace. -/
theorem Traceparent_attaches_parsed (r : Request) (v : Int)
    (hlen : (fields r).length = 4)
    (hver : (fields r).getD 0 [] = str "00")
    (hp : ParseInt ((fields r).getD 3 []) 16 8 = (v, none)) :
    Attaches r
        { ID := (fields r).getD 1 [], SpanID := (fields r).getD 2 [],
          Sampled := decide (Int.land v 1 ≠ 0) } ∧
      TraceFromContext
          (Trace.Context
            { ID := (fields r).getD 1 [], SpanID := (fields r).getD 2 [],
              Sampled := decide (Int.land v 1 ≠ 0) } r.Context) =
        some { ID := (fields r).getD 1 [], SpanID := (fields r).getD 2 [],
               Sampled := decide (Int.land v 1 ≠ 0) } :=
  ⟨Traceparent_attach r v hlen hver hp, TraceFromContext_attach _ _⟩

/-- Witness of C1 at the header value `00-ab-cd-03`, whose flags parse to 3. -/
theorem Traceparent_attaches_parsed_witness :
    Attaches (reqWith (str "00-ab-cd-03"))
        { ID := str "ab", SpanID := str "cd", Sampled := true } ∧
      TraceFromContext
          (Trace.Context { ID := str "ab", SpanID := str "cd", Sampled := true }
            (reqWith (str "00-ab-cd-03")).Context) =
        some { ID := str "ab", SpanID := str "cd", Sampled := true } :=
  Traceparent_attaches_parsed (reqWith (str "00-ab-cd-03")) 3 (by decide) (by decide) (by decide)

/-- C2, as stated, fails: the flags `ff` are two hexadecimal digits, and the header
value `00-ab-cd-ff` is passed through; no trace is attached, in particular not the
trace with `Sampled = true` that the low bit of `ff` would give. -/
theorem flags_ff_not_attached :
    (str "ff").length = 2 ∧ (∀ c ∈ str "ff", isHexDigit c = true) ∧ hexVal (str "ff") % 2 = 1 ∧
      (reqWith (str "00-ab-cd-ff")).Header.Get traceparentKey =
        str "00-" ++ str "ab" ++ str "-" ++ str "cd" ++ str "-" ++ str "ff" ∧
      PassesThrough (reqWith (str "00-ab-cd-ff")) ∧
      ¬ Attaches (reqWith (str "00-ab-cd-ff"))
          { ID := str "ab", SpanID := str "cd", Sampled := true } := by
  have hp : PassesThrough (reqWith (str "00-ab-cd-ff")) :=
    Traceparent_pass_err _ (by decide)
  exact ⟨by decide, by decide, by decide, by decide, hp,
    fun hA => not_passesThrough_of_attaches _ _ hA hp⟩

/-- C2, amended: for a header value `00-<id>-<spanid>-<flags>` in which `<id>` and
`<spanid>` contain no `-` and `<flags>` is two hexadecimal digits of value at most
`0x7f`, the handler attaches the trace with `ID = <id>` and `SpanID = <spanid>`
verbatim and `Sampled` the least-significant bit of `<flags>` read in base 16. -/
theorem Traceparent_attaches_wellformed (r : Request) (id span flags : GoString)
    (hid : 45 ∉ id) (hspan : 45 ∉ span) (hlen : flags.length = 2)
    (hhex : ∀ c ∈ flags, isHexDigit c = true) (hval : hexVal flags ≤ 127)
    (hr : r.Header.Get traceparentKey = str "00-" ++ id ++ str "-" ++ span ++ str "-" ++ flags) :
    Attaches r { ID := id, SpanID := span, Sampled := decide (hexVal flags % 2 = 1) } ∧
      TraceFromContext
          (Trace.Context { ID := id, SpanID := span, Sampled := decide (hexVal flags % 2 = 1) }
            r.Context) =
        some { ID := id, SpanID := span, Sampled := decide (hexVal flags % 2 = 1) } := by
  have hne : flags ≠ [] := by
    rintro rfl
    simp at hlen
  exact ⟨attaches_of_form r id span flags hid hspan hne hhex hval hr, TraceFromContext_attach _ _⟩

/-- Witness of the amended C2 at the header value
`00-4bf92f3577b34da6a3ce929d0e0e4736-00f067aa0ba902b7-01`: sampled. -/
theorem Traceparent_attaches_wellformed_witness :
    Attaches (reqWith (str "00-4bf92f3577b34da6a3ce929d0e0e4736-00f067aa0ba902b7-01"))
        { ID := str "4bf92f3577b34da6a3ce929d0e0e4736", SpanID := str "00f067aa0ba902b7",
          Sampled := decide (hexVal (str "01") % 2 = 1) } ∧
      TraceFromContext
          (Trace.Context
            { ID := str "4bf92f3577b34da6a3ce929d0e0e4736", SpanID := str "00f067aa0ba902b7",
              Sampled := decide (hexVal (str "01") % 2 = 1) }
            (reqWith (str "00-4bf92f3577b34da6a3ce929d0e0e4736-00f067aa0ba902b7-01")).Context) =
        some { ID := str "4bf92f3577b34da6a3ce929d0e0e4736", SpanID := str "00f067aa0ba902b7",
               Sampled := decide (hexVal (str "01") % 2 = 1) } :=
  Traceparent_attaches_wellformed
    (reqWith (str "00-4bf92f3577b34da6a3ce929d0e0e4736-00f067aa0ba902b7-01"))
    (str "4bf92f3577b34da6a3ce929d0e0e4736") (str "00f067aa0ba902b7") (str "01")
    (by decide) (by decide) (by decide) (by decide) (by decide) (by decide)

/-- C3: for every request, one call of the handler made by `Traceparent(next)` is
exactly one call of `next`, with the response writer it was given and a request
that is the incoming one or a copy of it with a new context; the state after the
call is the state `next` leaves, so the wrapper adds no effect of its own.  With
the recording handler as `next` the log grows by exactly one entry. -/
theorem Traceparent_calls_next_once (r : Request) :
    ∃ r1 : Request, (r1 = r ∨ ∃ ctx : Context, r1 = r.WithContext ctx) ∧
      (∀ (ω σ : Type) (next : Handler ω σ) (w : ω) (s : σ),
        Traceparent next w r s = next w r1 s) ∧
      (∀ (ω : Type) (w : ω) (log : List (ω × Request)),
        Traceparent record w r log = log ++ [(w, r1)]) := by
  rcases outcome_of_header (r.Header.Get traceparentKey) with h | ⟨t, h⟩
  · exact ⟨r, Or.inl rfl, h r rfl, fun ω w log => h r rfl ω _ record w log⟩
  · exact ⟨r.WithContext (t.Context r.Context), Or.inr ⟨_, rfl⟩, h r rfl,
      fun ω w log => h r rfl ω _ record w log⟩

/-- C4: a request whose `traceparent` header is absent or empty, or whose header
value splits on `-` into a number of fields other than 4, is passed through: `next`
is called with the original request.  The empty string splits into exactly one
empty field. -/
theorem Traceparent_passes_wrong_count (r : Request)
    (h : List.lookup traceparentKey r.Header = none ∨ r.Header.Get traceparentKey = [] ∨
      (fields r).length ≠ 4) :
    PassesThrough r ∧ Split [] 45 = [[]] := by
  refine ⟨?_, rfl⟩
  apply Traceparent_pass_shape
  rintro ⟨hlen, -⟩
  rcases h with h | h | h
  · rw [Get_of_lookup_none _ _ h] at hlen
    revert hlen
    decide
  · rw [h] at hlen
    revert hlen
    decide
  · exact h hlen

/-- Witness of C4 at the header value `00-abc-def`, which has 3 fields. -/
theorem Traceparent_passes_wrong_count_witness :
    PassesThrough (reqWith (str "00-abc-def")) ∧ Split [] 45 = [[]] :=
  Traceparent_passes_wrong_count (reqWith (str "00-abc-def")) (Or.inr (Or.inr (by decide)))

/-- C5: a request whose `traceparent` header value splits on `-` into exactly 4
fields of which the first is not exactly `"00"` is passed through, whatever the
other three fields are. -/
theorem Traceparent_passes_other_version (r : Request)
    (hlen : (fields r).length = 4) (hver : (fields r).getD 0 [] ≠ str "00") :
    PassesThrough r := by
  have _h := hlen
  exact Traceparent_pass_shape r (fun h => hver h.2)

/-- Witness of C5 at the header value
`01-4bf92f3577b34da6a3ce929d0e0e4736-00f067aa0ba902b7-01`. -/
theorem Traceparent_passes_other_version_witness :
    PassesThrough (reqWith (str "01-4bf92f3577b34da6a3ce929d0e0e4736-00f067aa0ba902b7-01")) :=
  Traceparent_passes_other_version
    (reqWith (str "01-4bf92f3577b34da6a3ce929d0e0e4736-00f067aa0ba902b7-01"))
    (by decide) (by decide)

/-- C6: a request whose `traceparent` header value has exactly 4 fields and version
`"00"` and whose trace-flags field is a string of hexadecimal digits of value
greater than 127 is passed through. -/
theorem Traceparent_passes_flags_overflow (r : Request)
    (hlen : (fields r).length = 4) (hver : (fields r).getD 0 [] = str "00")
    (hhex : ∀ c ∈ (fields r).getD 3 [], isHexDigit c = true)
    (hval : 127 < hexVal ((fields r).getD 3 [])) :
    PassesThrough r := by
  have _h := hlen
  have _h := hver
  have hne : (fields r).getD 3 [] ≠ [] := by
    intro e
    rw [e] at hval
    revert hval
    decide
  apply Traceparent_pass_err
  show (ParseInt ((fields r).getD 3 []) 16 8).2 ≠ none
  rw [ParseInt_hex _ hne hhex, if_neg (by omega)]
  simp

/-- Witness of C6 at the header value `00-ab-cd-100`. -/
theorem Traceparent_passes_flags_overflow_witness :
    PassesThrough (reqWith (str "00-ab-cd-100")) :=
  Traceparent_passes_flags_overflow (reqWith (str "00-ab-cd-100"))
    (by decide) (by decide) (by decide) (by decide)

/-- C7, as stated, fails: the header value `00-ab-cd-+01` has 4 fields and version
`"00"`, its trace-flags field `+01` contains `+`, which is not a hexadecimal digit,
and the handler attaches a trace instead of passing the request through. -/
theorem flags_plus_sign_attached :
    (fields (reqWith (str "00-ab-cd-+01"))).length = 4 ∧
      (fields (reqWith (str "00-ab-cd-+01"))).getD 0 [] = str "00" ∧
      (∃ c ∈ (fields (reqWith (str "00-ab-cd-+01"))).getD 3 [], isHexDigit c = false) ∧
      Attaches (reqWith (str "00-ab-cd-+01"))
        { ID := str "ab", SpanID := str "cd", Sampled := true } ∧
      ¬ PassesThrough (reqWith (str "00-ab-cd-+01")) := by
  have hA : Attaches (reqWith (str "00-ab-cd-+01"))
      { ID := str "ab", SpanID := str "cd", Sampled := true } :=
    Traceparent_attach (reqWith (str "00-ab-cd-+01")) 1 (by decide) (by decide) (by decide)
  exact ⟨by decide, by decide, ⟨43, by decide, by decide⟩, hA,
    not_passesThrough_of_attaches _ _ hA⟩

/-- C7, amended: a request whose `traceparent` header value has exactly 4 fields and
version `"00"` and whose trace-flags field contains a character that is not a
hexadecimal digit is passed through, unless the field is a `+` followed by one or
more hexadecimal digits of value at most 127. -/
theorem Traceparent_passes_nonhex_flags (r : Request)
    (hlen : (fields r).length = 4) (hver : (fields r).getD 0 [] = str "00")
    (hbad : ∃ c ∈ (fields r).getD 3 [], isHexDigit c = false)
    (hplus : ¬ ∃ digits : GoString, (fields r).getD 3 [] = 43 :: digits ∧ digits ≠ [] ∧
      (∀ c ∈ digits, isHexDigit c = true) ∧ hexVal digits ≤ 127) :
    PassesThrough r := by
  have _h := hver
  have hd := flags_no_dash r hlen
  apply Traceparent_pass_err
  show (ParseInt ((fields r).getD 3 []) 16 8).2 ≠ none
  intro hok
  obtain ⟨hne, hhex, hval⟩ := (ParseInt_ok_iff _ (head_ne_of_not_mem _ hd)).mp hok
  rcases unsignedPart_cases _ hd with e | e
  · obtain ⟨c, hc, hx⟩ := hbad
    rw [e] at hc
    rw [hhex c hc] at hx
    cases hx
  · exact hplus ⟨_, e, hne, hhex, hval⟩

/-- Witness of the amended C7 at the header value `00-ab-cd-+80`: the trace-flags
field contains `+`, and the digits after it have the value 128. -/
theorem Traceparent_passes_nonhex_flags_witness :
    PassesThrough (reqWith (str "00-ab-cd-+80")) :=
  Traceparent_passes_nonhex_flags (reqWith (str "00-ab-cd-+80")) (by decide) (by decide)
    ⟨43, by decide, by decide⟩
    (by
      rintro ⟨digits, hd, -, -, hv⟩
      have h1 : str "+80" = 43 :: digits := hd
      have h2 : digits = str "80" := by
        have h3 : 43 :: str "80" = 43 :: digits := h1
        exact (List.cons.inj h3).2.symm
      rw [h2] at hv
      revert hv
      decide)

/-- C8: for every request there are the request `r1` that `next` receives under
`Traceparent(next)` and the request `r2` that it receives under
`Traceparent(Traceparent(next))`; both have the header of the incoming request and
their contexts carry the same trace: the trace attached for the header when it is
accepted, and both are the incoming request itself when it is not. -/
theorem Traceparent_idempotent (r : Request) :
    ∃ r1 r2 : Request,
      (∀ (ω σ : Type) (next : Handler ω σ) (w : ω) (s : σ),
        Traceparent next w r s = next w r1 s) ∧
      (∀ (ω σ : Type) (next : Handler ω σ) (w : ω) (s : σ),
        Traceparent (Traceparent next) w r s = next w r2 s) ∧
      r1.Header = r.Header ∧ r2.Header = r.Header ∧
      TraceFromContext r2.Context = TraceFromContext r1.Context ∧
      (PassesThrough r → r1 = r ∧ r2 = r) ∧
      (∀ t : Trace, Attaches r t →
        TraceFromContext r1.Context = some t ∧ TraceFromContext r2.Context = some t) := by
  rcases outcome_of_header (r.Header.Get traceparentKey) with h | ⟨t, h⟩
  · refine ⟨r, r, h r rfl, ?_, rfl, rfl, rfl, fun _ => ⟨rfl, rfl⟩, ?_⟩
    · intro ω σ next w s
      rw [h r rfl ω σ (Traceparent next) w s]
      exact h r rfl ω σ next w s
    · intro t ht
      exact absurd (h r rfl) (not_passesThrough_of_attaches r t ht)
  · have h1 := h r rfl
    have h2 := h (r.WithContext (t.Context r.Context)) rfl
    refine ⟨r.WithContext (t.Context r.Context),
      (r.WithContext (t.Context r.Context)).WithContext
        (t.Context (r.WithContext (t.Context r.Context)).Context),
      h1, ?_, rfl, rfl, ?_, ?_, ?_⟩
    · intro ω σ next w s
      rw [h1 ω σ (Traceparent next) w s]
      exact h2 ω σ next w s
    · simp only [WithContext_Context, TraceFromContext_attach]
    · intro hp
      exact absurd hp (not_passesThrough_of_attaches r t h1)
    · intro t1 ht1
      rw [attaches_unique r t1 t ht1 h1]
      simp only [WithContext_Context, TraceFromContext_attach, and_self]

/-- C9: for all strings `id` and `span`, the header value `"00-" + id + "-" + span +
"-01"` makes the handler attach a trace if and only if neither `id` nor `span`
contains `-`; in that case the trace attached is `{ID = id, SpanID = span,
Sampled = true}`, and no other trace is ever attached for such a header. -/
theorem Traceparent_ids_verbatim (r : Request) (id span : GoString)
    (hr : r.Header.Get traceparentKey = str "00-" ++ id ++ str "-" ++ span ++ str "-01") :
    ((∃ t : Trace, Attaches r t) ↔ (45 ∉ id ∧ 45 ∉ span)) ∧
      (45 ∉ id ∧ 45 ∉ span → Attaches r { ID := id, SpanID := span, Sampled := true }) ∧
      (∀ t : Trace, Attaches r t → t = { ID := id, SpanID := span, Sampled := true }) := by
  have hr1 : r.Header.Get traceparentKey =
      str "00-" ++ id ++ str "-" ++ span ++ str "-" ++ str "01" := by
    rw [hr, str_dash_01]
    simp
  have hyes : 45 ∉ id ∧ 45 ∉ span →
      Attaches r { ID := id, SpanID := span, Sampled := true } := fun hc =>
    attaches_of_form r id span (str "01") hc.1 hc.2 (by decide) (by decide) (by decide) hr1
  have hno : ¬ (45 ∉ id ∧ 45 ∉ span) → PassesThrough r := by
    intro hc
    apply Traceparent_pass_shape
    rintro ⟨hlen, -⟩
    rw [Split_length, hr1, header_shape, count_of_form] at hlen
    have hpos : 0 < List.count 45 id ∨ 0 < List.count 45 span := by
      by_cases h1 : 45 ∈ id
      · exact Or.inl (List.count_pos_iff.mpr h1)
      · by_cases h2 : 45 ∈ span
        · exact Or.inr (List.count_pos_iff.mpr h2)
        · exact absurd ⟨h1, h2⟩ hc
    omega
  have hiff : (∃ t : Trace, Attaches r t) ↔ (45 ∉ id ∧ 45 ∉ span) := by
    constructor
    · rintro ⟨t, ht⟩
      by_contra hc
      exact not_passesThrough_of_attaches r t ht (hno hc)
    · intro hc
      exact ⟨_, hyes hc⟩
  refine ⟨hiff, hyes, ?_⟩
  intro t ht
  exact attaches_unique r t _ ht (hyes (hiff.mp ⟨t, ht⟩))

/-- Witness of C9 at `id = "x y"` and an empty `span`. -/
theorem Traceparent_ids_verbatim_witness :
    ((∃ t : Trace, Attaches (reqWith (str "00-x y--01")) t) ↔
        (45 ∉ str "x y" ∧ 45 ∉ str "")) ∧
      (45 ∉ str "x y" ∧ 45 ∉ str "" →
        Attaches (reqWith (str "00-x y--01"))
          { ID := str "x y", SpanID := str "", Sampled := true }) ∧
      (∀ t : Trace, Attaches (reqWith (str "00-x y--01")) t →
        t = { ID := str "x y", SpanID := str "", Sampled := true }) :=
  Traceparent_ids_verbatim (reqWith (str "00-x y--01")) (str "x y") (str "") (by decide)

/-- C10, as stated, fails: `-1` lies in the signed 8-bit range, and no request
makes the handler parse its trace-flags field to `-1`: a field of the split header
value contains no `-`, so `strconv.ParseInt` never sees a minus sign. -/
theorem no_header_parses_to_minus_one :
    (-128 : Int) ≤ -1 ∧ (-1 : Int) ≤ 127 ∧
      ¬ ∃ r : Request, (fields r).length = 4 ∧ (fields r).getD 0 [] = str "00" ∧
        ParseInt ((fields r).getD 3 []) 16 8 = (-1, none) := by
  refine ⟨by decide, by decide, ?_⟩
  rintro ⟨r, hlen, -, hp⟩
  have := parsed_flags_nonneg r (-1) hlen hp
  omega

/-- C10, amended: for every integer `v` in the signed 8-bit range there is a request
for which the handler parses the trace-flags field to `v` and attaches a trace
with `Sampled = ((v & 1) != 0)` if and only if `v` is not negative. -/
theorem Traceparent_flags_values (v : Int) (hlo : -128 ≤ v) (hhi : v ≤ 127) :
    (∃ r : Request, (fields r).length = 4 ∧ (fields r).getD 0 [] = str "00" ∧
        ParseInt ((fields r).getD 3 []) 16 8 = (v, none) ∧
        ∃ id span : GoString,
          Attaches r { ID := id, SpanID := span, Sampled := decide (Int.land v 1 ≠ 0) }) ↔
      0 ≤ v := by
  have _h := hlo
  constructor
  · rintro ⟨r, hlen, -, hp, -⟩
    exact parsed_flags_nonneg r v hlen hp
  · intro h0
    obtain ⟨n, rfl⟩ := Int.eq_ofNat_of_zero_le h0
    obtain ⟨h1, h2, h3, h4⟩ := parses_hexByte n (by omega)
    exact ⟨_, h1, h2, h3, _, _, h4⟩

/-- Witness of the amended C10 at `v = 127`. -/
theorem Traceparent_flags_values_witness :
    (∃ r : Request, (fields r).length = 4 ∧ (fields r).getD 0 [] = str "00" ∧
        ParseInt ((fields r).getD 3 []) 16 8 = (127, none) ∧
        ∃ id span : GoString,
          Attaches r { ID := id, SpanID := span, Sampled := decide (Int.land 127 1 ≠ 0) }) ↔
      (0 : Int) ≤ 127 :=
  Traceparent_flags_values 127 (by decide) (by decide)

/-- C11: the handler attaches a trace exactly when the `traceparent` header value
contains exactly three `-`, begins with `00-`, and the text after its last `-` is
an optional `+` followed by one or more hexadecimal digits of value at most 127;
every other header value is passed through, the one with an empty trace-flags
field among them. -/
theorem Traceparent_accepts_iff (r : Request) :
    ((∃ t : Trace, Attaches r t) ↔ AcceptedHeader (r.Header.Get traceparentKey)) ∧
      (¬ AcceptedHeader (r.Header.Get traceparentKey) → PassesThrough r) ∧
      (r.Header.Get traceparentKey = str "00-ab-cd-" → PassesThrough r) := by
  have hiff : (∃ t : Trace, Attaches r t) ↔ AcceptedHeader (r.Header.Get traceparentKey) :=
    ⟨fun ⟨t, ht⟩ => accepted_of_attaches r t ht, attaches_of_accepted r⟩
  refine ⟨hiff, ?_, ?_⟩
  · intro hna
    rcases passes_or_attaches r with hp | ha
    · exact hp
    · exact absurd (hiff.mp ha) hna
  · intro hr
    apply Traceparent_pass_err
    rw [hr]
    decide

/-- C12: whenever the handler attaches a trace, `Sampled` is true exactly when the
last character of the trace-flags field is one of `1 3 5 7 9 b d f B D F`; two
accepted requests whose trace-flags fields end in the same character get the same
`Sampled`, whatever the other characters of the fields are. -/
theorem Traceparent_sampled_last_char (r1 r2 : Request) (t1 t2 : Trace)
    (h1 : Attaches r1 t1) (h2 : Attaches r2 t2) :
    (t1.Sampled = true ↔
        ∃ c, ((fields r1).getD 3 []).getLast? = some c ∧ c ∈ str "13579bdfBDF") ∧
      (((fields r1).getD 3 []).getLast? = ((fields r2).getD 3 []).getLast? →
        t1.Sampled = t2.Sampled) := by
  have e1 := sampled_iff_last r1 t1 h1
  have e2 := sampled_iff_last r2 t2 h2
  refine ⟨e1, ?_⟩
  intro hl
  rw [hl] at e1
  exact Bool.eq_iff_iff.mpr (e1.trans e2.symm)

/-- Witness of C12 at the header values `00-ab-cd-7b` and `00-xy-z-+0b`, whose
trace-flags fields both end in `b`. -/
theorem Traceparent_sampled_last_char_witness :
    (Trace.Sampled { ID := str "ab", SpanID := str "cd", Sampled := true } = true ↔
        ∃ c, ((fields (reqWith (str "00-ab-cd-7b"))).getD 3 []).getLast? = some c ∧
          c ∈ str "13579bdfBDF") ∧
      (((fields (reqWith (str "00-ab-cd-7b"))).getD 3 []).getLast? =
          ((fields (reqWith (str "00-xy-z-+0b"))).getD 3 []).getLast? →
        Trace.Sampled { ID := str "ab", SpanID := str "cd", Sampled := true } =
          Trace.Sampled { ID := str "xy", SpanID := str "z", Sampled := true }) :=
  Traceparent_sampled_last_char (reqWith (str "00-ab-cd-7b")) (reqWith (str "00-xy-z-+0b"))
    { ID := str "ab", SpanID := str "cd", Sampled := true }
    { ID := str "xy", SpanID := str "z", Sampled := true }
    (Traceparent_attach (reqWith (str "00-ab-cd-7b")) 123 (by decide) (by decide) (by decide))
    (Traceparent_attach (reqWith (str "00-xy-z-+0b")) 11 (by decide) (by decide) (by decide))

/-- C13: for `id` and `span` without `-` and a non-empty string `f` of hexadecimal
digits, the header values `"00-" + id + "-" + span + "-" + f` and
`"00-" + id + "-" + span + "-0" + f` have the same outcome: both are passed
through, or the same trace is attached to both.  The flags `1`, `01` and `0001`
all attach `Sampled = true`. -/
theorem Traceparent_flags_leading_zero (id span f : GoString)
    (hid : 45 ∉ id) (hspan : 45 ∉ span) (hne : f ≠ [])
    (hhex : ∀ c ∈ f, isHexDigit c = true) :
    (∀ r1 r2 : Request,
        r1.Header.Get traceparentKey = str "00-" ++ id ++ str "-" ++ span ++ str "-" ++ f →
        r2.Header.Get traceparentKey = str "00-" ++ id ++ str "-" ++ span ++ str "-0" ++ f →
        (PassesThrough r1 ∧ PassesThrough r2) ∨ ∃ t : Trace, Attaches r1 t ∧ Attaches r2 t) ∧
      (∀ r : Request,
        (r.Header.Get traceparentKey = str "00-" ++ id ++ str "-" ++ span ++ str "-" ++ str "1" ∨
          r.Header.Get traceparentKey =
            str "00-" ++ id ++ str "-" ++ span ++ str "-" ++ str "01" ∨
          r.Header.Get traceparentKey =
            str "00-" ++ id ++ str "-" ++ span ++ str "-" ++ str "0001") →
        Attaches r { ID := id, SpanID := span, Sampled := true }) := by
  constructor
  · intro r1 r2 hr1 hr2
    have hr2a : r2.Header.Get traceparentKey =
        str "00-" ++ id ++ str "-" ++ span ++ str "-" ++ (48 :: f) := by
      rw [hr2, List.append_assoc _ (str "-0") f, str_dash_0, ← List.append_assoc]
    have hhex0 : ∀ c ∈ 48 :: f, isHexDigit c = true := by
      intro c hc
      rcases List.mem_cons.mp hc with rfl | hc
      · decide
      · exact hhex c hc
    by_cases hval : hexVal f ≤ 127
    · right
      refine ⟨{ ID := id, SpanID := span, Sampled := decide (hexVal f % 2 = 1) },
        attaches_of_form r1 id span f hid hspan hne hhex hval hr1, ?_⟩
      exact attaches_of_form r2 id span (48 :: f) hid hspan (by simp) hhex0
        (by rw [hexVal_zero_cons]; exact hval) hr2a
    · left
      exact ⟨passes_of_form r1 id span f hid hspan hne hhex (by omega) hr1,
        passes_of_form r2 id span (48 :: f) hid hspan (by simp) hhex0
          (by rw [hexVal_zero_cons]; omega) hr2a⟩
  · intro r hr
    rcases hr with hr | hr | hr
    · exact attaches_of_form r id span (str "1") hid hspan (by decide) (by decide) (by decide) hr
    · exact attaches_of_form r id span (str "01") hid hspan (by decide) (by decide) (by decide) hr
    · exact attaches_of_form r id span (str "0001") hid hspan (by decide) (by decide)
        (by decide) hr

/-- Witness of C13 at `id = "ab"`, `span = "cd"` and `f = "7f"`. -/
theorem Traceparent_flags_leading_zero_witness :
    (∀ r1 r2 : Request,
        r1.Header.Get traceparentKey =
          str "00-" ++ str "ab" ++ str "-" ++ str "cd" ++ str "-" ++ str "7f" →
        r2.Header.Get traceparentKey =
          str "00-" ++ str "ab" ++ str "-" ++ str "cd" ++ str "-0" ++ str "7f" →
        (PassesThrough r1 ∧ PassesThrough r2) ∨ ∃ t : Trace, Attaches r1 t ∧ Attaches r2 t) ∧
      (∀ r : Request,
        (r.Header.Get traceparentKey =
            str "00-" ++ str "ab" ++ str "-" ++ str "cd" ++ str "-" ++ str "1" ∨
          r.Header.Get traceparentKey =
            str "00-" ++ str "ab" ++ str "-" ++ str "cd" ++ str "-" ++ str "01" ∨
          r.Header.Get traceparentKey =
            str "00-" ++ str "ab" ++ str "-" ++ str "cd" ++ str "-" ++ str "0001") →
        Attaches r { ID := str "ab", SpanID := str "cd", Sampled := true }) :=
  Traceparent_flags_leading_zero (str "ab") (str "cd") (str "7f")
    (by decide) (by decide) (by decide) (by decide)

/-- C14: two requests whose `traceparent` header values are equal are both passed
through or both get the same trace attached, whatever their other headers, their
method, URL, body and context are. -/
theorem Traceparent_header_value_only (r1 r2 : Request)
    (h : r1.Header.Get traceparentKey = r2.Header.Get traceparentKey) :
    (PassesThrough r1 ∧ PassesThrough r2) ∨ ∃ t : Trace, Attaches r1 t ∧ Attaches r2 t := by
  rcases outcome_of_header (r1.Header.Get traceparentKey) with hp | ⟨t, ht⟩
  · exact Or.inl ⟨hp r1 rfl, hp r2 h.symm⟩
  · exact Or.inr ⟨t, ht r1 rfl, ht r2 h.symm⟩

/-- Witness of C14 at two requests with the header value `00-ab-cd-01` that differ in
method, URL, body, another header and context. -/
theorem Traceparent_header_value_only_witness :
    (PassesThrough (reqWith (str "00-ab-cd-01")) ∧
        PassesThrough
          { Method := str "POST", URL := str "/v1/items",
            Header := [(str "Accept", [str "text/plain"]),
              (traceparentKey, [str "00-ab-cd-01", str "junk"])],
            Body := str "payload",
            ctx := some (Context.WithValue Context.Background (CtxKey.other 7)
              (CtxVal.other 9)) }) ∨
      ∃ t : Trace, Attaches (reqWith (str "00-ab-cd-01")) t ∧
        Attaches
          { Method := str "POST", URL := str "/v1/items",
            Header := [(str "Accept", [str "text/plain"]),
              (traceparentKey, [str "00-ab-cd-01", str "junk"])],
            Body := str "payload",
            ctx := some (Context.WithValue Context.Background (CtxKey.other 7)
              (CtxVal.other 9)) } t :=
  Traceparent_header_value_only (reqWith (str "00-ab-cd-01")) _ (by decide)

/-- C15: when the handler attaches a trace, that is when the header value has 4
fields, version `"00"` and trace-flags that parse without error, the request
given to `next` has the method, URL, header and body of the incoming request; its
context is `context.WithValue` of the incoming context with the trace under the
trace key, so it returns the trace for the trace key and, for every other key,
what the incoming context returns. -/
theorem Traceparent_changes_context_only (r : Request) (v : Int)
    (hlen : (fields r).length = 4) (hver : (fields r).getD 0 [] = str "00")
    (hp : ParseInt ((fields r).getD 3 []) 16 8 = (v, none)) :
    ∃ r1 : Request,
      (∀ (ω σ : Type) (next : Handler ω σ) (w : ω) (s : σ),
        Traceparent next w r s = next w r1 s) ∧
      (∀ (ω : Type) (w : ω) (log : List (ω × Request)),
        Traceparent record w r log = log ++ [(w, r1)]) ∧
      r1.Method = r.Method ∧ r1.URL = r.URL ∧ r1.Header = r.Header ∧ r1.Body = r.Body ∧
      r1.Header.Get traceparentKey = r.Header.Get traceparentKey ∧
      r1.Context =
        Context.WithValue r.Context CtxKey.traceContextKey
          (CtxVal.trace
            { ID := (fields r).getD 1 [], SpanID := (fields r).getD 2 [],
              Sampled := decide (Int.land v 1 ≠ 0) }) ∧
      r1.Context.Value CtxKey.traceContextKey =
        some (CtxVal.trace
          { ID := (fields r).getD 1 [], SpanID := (fields r).getD 2 [],
            Sampled := decide (Int.land v 1 ≠ 0) }) ∧
      (∀ k : CtxKey, k ≠ CtxKey.traceContextKey → r1.Context.Value k = r.Context.Value k) := by
  have hA := Traceparent_attach r v hlen hver hp
  refine ⟨r.WithContext
      (Trace.Context
        { ID := (fields r).getD 1 [], SpanID := (fields r).getD 2 [],
          Sampled := decide (Int.land v 1 ≠ 0) } r.Context),
    hA, fun ω w log => hA ω _ record w log, rfl, rfl, rfl, rfl, rfl, rfl, ?_, ?_⟩
  · simp [WithContext_Context, Trace.Context, Context.Value]
  · intro k hk
    simp only [WithContext_Context, Trace.Context, Context.Value]
    rw [if_neg (fun e => hk e.symm)]

/-- Witness of C15 at `sampleRequest`. -/
theorem Traceparent_changes_context_only_witness :
    ∃ r1 : Request,
      (∀ (ω σ : Type) (next : Handler ω σ) (w : ω) (s : σ),
        Traceparent next w sampleRequest s = next w r1 s) ∧
      (∀ (ω : Type) (w : ω) (log : List (ω × Request)),
        Traceparent record w sampleRequest log = log ++ [(w, r1)]) ∧
      r1.Method = str "POST" ∧ r1.URL = str "/v1/items" ∧
      r1.Header =
        [(str "Accept", [str "text/plain"]), (traceparentKey, [str "00-ab-cd-01"])] ∧
      r1.Body = str "payload" ∧
      r1.Header.Get traceparentKey = str "00-ab-cd-01" ∧
      r1.Context =
        Context.WithValue
          (Context.WithValue Context.Background (CtxKey.other 7) (CtxVal.other 9))
          CtxKey.traceContextKey
          (CtxVal.trace { ID := str "ab", SpanID := str "cd", Sampled := true }) ∧
      r1.Context.Value CtxKey.traceContextKey =
        some (CtxVal.trace { ID := str "ab", SpanID := str "cd", Sampled := true }) ∧
      (∀ k : CtxKey, k ≠ CtxKey.traceContextKey →
        r1.Context.Value k =
          (Context.WithValue Context.Background (CtxKey.other 7) (CtxVal.other 9)).Value k) :=
  Traceparent_changes_context_only sampleRequest 1 (by decide) (by decide) (by decide)

end traceparent
